import Mathlib

/-!
Verification of the moln bencode codec and its generic lexer.

The Python source under `moln/lexer` and `moln/bencode` is shallowly
embedded here: byte buffers are `List Nat` (one entry per byte),
positions are pairs of Python integers (`Int × Int`), fallible Python
code returns `Except PyErr`.
-/

namespace Moln

/-- A byte buffer: each entry is one byte value. -/
abbrev Bytes := List Nat

/-- A source position, as (line, character) — Python integers. -/
abbrev Position := Int × Int

/-- Model of Python `bytes.rfind(b)` restricted to a single byte needle:
the highest index at which `b` occurs in `s`, or `-1` when absent. -/
def pyRfind (s : Bytes) (b : Nat) : Int :=
  match s with
  | [] => -1
  | x :: xs =>
    let r := pyRfind xs b
    if r ≥ 0 then r + 1
    else if x = b then 0 else -1

/-- `moln.lexer.get_new_position`: count newline bytes (10) in the
consumed span; the column either accumulates or restarts after the
last newline. -/
def get_new_position (source_delta : Bytes) (start_position : Position) : Position :=
  let start_line := start_position.1
  let start_character := start_position.2
  let new_lines : Int := source_delta.count 10
  let end_line := start_line + new_lines
  let end_character :=
    if new_lines > 0 then
      (source_delta.length : Int) - pyRfind source_delta 10 - 1
    else
      start_character + source_delta.length
  (end_line, end_character)

theorem pyRfind_neg_of_count_zero (s : Bytes) (b : Nat) (h : s.count b = 0) :
    pyRfind s b = -1 := by
  induction s with
  | nil => rfl
  | cons x xs ih =>
    rw [List.count_cons] at h
    have hx : ¬ x = b := by
      intro hxb
      simp [hxb] at h
    have hxs : xs.count b = 0 := by omega
    simp [pyRfind, ih hxs, hx]

theorem pyRfind_nonneg_of_count_pos (s : Bytes) (b : Nat) (h : 0 < s.count b) :
    0 ≤ pyRfind s b := by
  induction s with
  | nil => simp at h
  | cons x xs ih =>
    rw [List.count_cons] at h
    by_cases hxs : 0 < xs.count b
    · have := ih hxs
      simp only [pyRfind]
      split
      · omega
      · omega
    · have hx : x = b := by
        rcases Nat.eq_zero_or_pos (xs.count b) with h0 | h1
        · by_contra hxb
          simp [h0, hxb] at h
        · exact absurd h1 hxs
      have h0 : xs.count b = 0 := by omega
      have := pyRfind_neg_of_count_zero xs b h0
      simp [pyRfind, this, hx]

theorem pyRfind_append_right (a c : Bytes) (b : Nat) (h : 0 < c.count b) :
    pyRfind (a ++ c) b = a.length + pyRfind c b := by
  induction a with
  | nil => simp
  | cons x xs ih =>
    have hc : 0 ≤ pyRfind (xs ++ c) b := by
      apply pyRfind_nonneg_of_count_pos
      rw [List.count_append]
      omega
    simp only [List.cons_append, pyRfind, List.append_eq, ih]
    rw [if_pos (by omega)]
    simp only [List.length_cons]
    push_cast
    ring

theorem pyRfind_append_left (a c : Bytes) (b : Nat) (h : c.count b = 0) :
    pyRfind (a ++ c) b = pyRfind a b := by
  induction a with
  | nil => simpa using pyRfind_neg_of_count_zero c b h
  | cons x xs ih => simp only [List.cons_append, pyRfind, List.append_eq, ih]

theorem get_new_position_fst (d : Bytes) (p : Position) :
    (get_new_position d p).1 = p.1 + d.count 10 := rfl

theorem get_new_position_snd_pos (d : Bytes) (p : Position) (h : 0 < d.count 10) :
    (get_new_position d p).2 = (d.length : Int) - pyRfind d 10 - 1 := by
  show (if ((d.count 10 : Int) > 0) then
      (d.length : Int) - pyRfind d 10 - 1
    else p.2 + d.length) = _
  rw [if_pos (by exact_mod_cast h)]

theorem get_new_position_snd_zero (d : Bytes) (p : Position) (h : d.count 10 = 0) :
    (get_new_position d p).2 = p.2 + d.length := by
  show (if ((d.count 10 : Int) > 0) then
      (d.length : Int) - pyRfind d 10 - 1
    else p.2 + d.length) = _
  rw [if_neg (by simp [h])]

/-- Claim C8: position tracking is associative over concatenation of
consumed byte spans: advancing by `a` and then by `b` equals advancing
by `a ++ b`, for every starting position. -/
theorem get_new_position_append (p : Position) (a b : Bytes) :
    get_new_position b (get_new_position a p) = get_new_position (a ++ b) p := by
  have hcount : (a ++ b).count 10 = a.count 10 + b.count 10 := List.count_append ..
  refine Prod.ext ?_ ?_
  · rw [get_new_position_fst, get_new_position_fst, get_new_position_fst, hcount]
    push_cast
    ring
  · by_cases hb : 0 < b.count 10
    · have hab : 0 < (a ++ b).count 10 := by omega
      rw [get_new_position_snd_pos b _ hb, get_new_position_snd_pos _ _ hab,
        pyRfind_append_right a b 10 hb, List.length_append]
      push_cast
      ring
    · have hb0 : b.count 10 = 0 := by omega
      rw [get_new_position_snd_zero b _ hb0]
      by_cases ha : 0 < a.count 10
      · have hab : 0 < (a ++ b).count 10 := by omega
        rw [get_new_position_snd_pos a _ ha, get_new_position_snd_pos _ _ hab,
          pyRfind_append_left a b 10 hb0, List.length_append]
        push_cast
        ring
      · have ha0 : a.count 10 = 0 := by omega
        have hab : (a ++ b).count 10 = 0 := by omega
        rw [get_new_position_snd_zero a _ ha0, get_new_position_snd_zero _ _ hab,
          List.length_append]
        push_cast
        ring

/-! ## The lexer (`moln.lexer.Lexer` configured by `moln.bencode.tokens.tokenize`)

The bencode lexer tries, at each offset, the rules
`StringToken('String')`, `Number = 0|[1-9][0-9]*`, `Type = [ild]`,
`End = e` in that order and emits the first match; an unmatched byte is
a lexical SyntaxError (modelled as `none`).  Each matcher below returns
the matched byte span (always a prefix of the remaining input). -/

/-- ASCII digit test, bytes 48..57. -/
def isDigitByte (b : Nat) : Bool := 48 ≤ b && b ≤ 57

/-- Length of the maximal run of ASCII digits at the head of `s`
(the greedy `[0-9]*` of the regexes involved). -/
def digitRun : Bytes → Nat
  | [] => 0
  | b :: bs => if isDigitByte b then digitRun bs + 1 else 0

/-- Numeric value of a run of ASCII digits, as Python `int` of the span. -/
def decimalValue (digits : Bytes) : Nat :=
  digits.foldl (fun acc b => acc * 10 + (b - 48)) 0

/-- `StringToken.match_spec`: match the preamble `([1-9][0-9]*):`, read
its numeric value `n`, and take the whole span `digits ++ ":" ++ n
bytes` — the Python slice `source[start_index:str_last]` clamps at the
end of the buffer exactly as `List.take` does. -/
def matchStringTok (s : Bytes) : Option Bytes :=
  match s with
  | [] => none
  | b :: bs =>
    if 49 ≤ b ∧ b ≤ 57 then
      let d := 1 + digitRun bs
      match (s.drop d).head? with
      | some c =>
        if c = 58 then
          some (s.take (d + 1 + decimalValue (s.take d)))
        else none
      | none => none
    else none

/-- The `Number` rule, regex `0|[1-9][0-9]*`: the branch `0` matches the
single byte `0`; otherwise a maximal nonempty digit run led by `1`-`9`. -/
def matchNumberTok (s : Bytes) : Option Bytes :=
  match s with
  | [] => none
  | b :: bs =>
    if b = 48 then some (s.take 1)
    else if 49 ≤ b ∧ b ≤ 57 then some (s.take (1 + digitRun bs))
    else none

/-- The `Type` rule, regex `[ild]` (bytes 105, 108, 100). -/
def matchTypeTok (s : Bytes) : Option Bytes :=
  match s with
  | [] => none
  | b :: _ => if b = 105 ∨ b = 108 ∨ b = 100 then some (s.take 1) else none

/-- The `End` rule, regex `e` (byte 101). -/
def matchEndTok (s : Bytes) : Option Bytes :=
  match s with
  | [] => none
  | b :: _ => if b = 101 then some (s.take 1) else none

/-- A "Token Mode" `Token`: name, matched byte span, start and end
positions (`end` is a Lean keyword, so the field is `stop`). -/
structure Tok where
  name : String
  value : Bytes
  start : Position
  stop : Position
deriving DecidableEq, Repr

/-- One step of `Lexer.__call__`: try the four bencode rules in their
configured priority order at the current offset. -/
def lexStep (s : Bytes) : Option (String × Bytes) :=
  match matchStringTok s with
  | some v => some ("String", v)
  | none =>
    match matchNumberTok s with
    | some v => some ("Number", v)
    | none =>
      match matchTypeTok s with
      | some v => some ("Type", v)
      | none =>
        match matchEndTok s with
        | some v => some ("End", v)
        | none => none

/-- The loop of `Lexer.__call__`: while input remains, emit the first
matching rule's token, advance offset and position; an unmatched byte
raises `SyntaxError`, modelled as `none`.  `fuel` only bounds the
recursion; every emitted token is nonempty, so `length + 1` suffices. -/
def lexGo : Nat → Bytes → Position → Option (List Tok)
  | _, [], _ => some []
  | 0, _ :: _, _ => none
  | fuel + 1, b :: bs, pos =>
    match lexStep (b :: bs) with
    | none => none
    | some (n, v) =>
      let e := get_new_position v pos
      match lexGo fuel ((b :: bs).drop v.length) e with
      | some toks => some ({ name := n, value := v, start := pos, stop := e } :: toks)
      | none => none

/-- `moln.bencode.tokens.tokenize`, fully evaluated as
`list(tokenize(_bytes))` is in `decode_bytes`; the scan starts at
offset 0 and position `(0, 0)`. -/
def tokenize (s : Bytes) : Option (List Tok) :=
  lexGo (s.length + 1) s (0, 0)

/-- Each token's span starts at the position the lexer was at, and the
next token starts where the previous one ended. -/
def chainFrom : Position → List Tok → Prop
  | _, [] => True
  | p, t :: ts => t.start = p ∧ chainFrom t.stop ts

theorem matchStringTok_take (s v : Bytes) (h : matchStringTok s = some v) :
    ∃ k, v = s.take k := by
  cases s with
  | nil => simp [matchStringTok] at h
  | cons b bs =>
    simp only [matchStringTok] at h
    split at h
    · split at h
      · split at h
        · exact ⟨_, (Option.some.injEq _ _ ▸ h).symm⟩
        · exact absurd h (by simp)
      · exact absurd h (by simp)
    · exact absurd h (by simp)

theorem matchNumberTok_take (s v : Bytes) (h : matchNumberTok s = some v) :
    ∃ k, v = s.take k := by
  cases s with
  | nil => simp [matchNumberTok] at h
  | cons b bs =>
    simp only [matchNumberTok] at h
    split at h
    · exact ⟨_, (Option.some.injEq _ _ ▸ h).symm⟩
    · split at h
      · exact ⟨_, (Option.some.injEq _ _ ▸ h).symm⟩
      · exact absurd h (by simp)

theorem matchTypeTok_take (s v : Bytes) (h : matchTypeTok s = some v) :
    ∃ k, v = s.take k := by
  cases s with
  | nil => simp [matchTypeTok] at h
  | cons b bs =>
    simp only [matchTypeTok] at h
    split at h
    · exact ⟨_, (Option.some.injEq _ _ ▸ h).symm⟩
    · exact absurd h (by simp)

theorem matchEndTok_take (s v : Bytes) (h : matchEndTok s = some v) :
    ∃ k, v = s.take k := by
  cases s with
  | nil => simp [matchEndTok] at h
  | cons b bs =>
    simp only [matchEndTok] at h
    split at h
    · exact ⟨_, (Option.some.injEq _ _ ▸ h).symm⟩
    · exact absurd h (by simp)

theorem lexStep_take (s : Bytes) (n : String) (v : Bytes)
    (h : lexStep s = some (n, v)) : ∃ k, v = s.take k := by
  unfold lexStep at h
  split at h
  · exact matchStringTok_take s v (by simp_all)
  · split at h
    · exact matchNumberTok_take s v (by simp_all)
    · split at h
      · exact matchTypeTok_take s v (by simp_all)
      · split at h
        · exact matchEndTok_take s v (by simp_all)
        · exact absurd h (by simp)

theorem take_append_drop_length (s : Bytes) (k : Nat) :
    s.take k ++ s.drop (s.take k).length = s := by
  rw [List.length_take]
  rcases le_total k s.length with hk | hk
  · rw [Nat.min_eq_left hk, List.take_append_drop]
  · rw [Nat.min_eq_right hk, List.take_of_length_le hk, List.drop_length,
      List.append_nil]

theorem lexGo_spec (fuel : Nat) :
    ∀ (s : Bytes) (pos : Position) (toks : List Tok),
      lexGo fuel s pos = some toks →
      (toks.map Tok.value).flatten = s ∧ chainFrom pos toks := by
  induction fuel with
  | zero =>
    intro s pos toks h
    cases s with
    | nil =>
      simp only [lexGo, Option.some.injEq] at h
      subst h
      exact ⟨rfl, trivial⟩
    | cons b bs => simp [lexGo] at h
  | succ fuel ih =>
    intro s pos toks h
    cases s with
    | nil =>
      simp only [lexGo, Option.some.injEq] at h
      subst h
      exact ⟨rfl, trivial⟩
    | cons b bs =>
      simp only [lexGo] at h
      cases hstep : lexStep (b :: bs) with
      | none => rw [hstep] at h; exact absurd h (by simp)
      | some nv =>
        obtain ⟨n, v⟩ := nv
        rw [hstep] at h
        dsimp only at h
        cases hrec : lexGo fuel ((b :: bs).drop v.length)
            (get_new_position v pos) with
        | none => rw [hrec] at h; exact absurd h (by simp)
        | some toks' =>
          rw [hrec] at h
          dsimp only at h
          simp only [Option.some.injEq] at h
          subst h
          obtain ⟨hjoin, hchain⟩ := ih _ _ _ hrec
          refine ⟨?_, rfl, hchain⟩
          simp only [List.map_cons, List.flatten_cons]
          rw [hjoin]
          obtain ⟨k, hk⟩ := lexStep_take _ _ _ hstep
          rw [hk, take_append_drop_length]

/-- Claim C10: on every source buffer on which tokenization runs to
normal completion, the concatenation of the emitted tokens' byte spans
in emission order is the whole source; the first token starts at
position `(0, 0)`, and each subsequent token starts where the previous
one ended. -/
theorem tokenize_spans (src : Bytes) (toks : List Tok)
    (h : tokenize src = some toks) :
    (toks.map Tok.value).flatten = src ∧ chainFrom (0, 0) toks :=
  lexGo_spec (src.length + 1) src (0, 0) toks h

/-- Witness for C10 at the concrete buffer `i0e`. -/
theorem tokenize_spans_witness :
    (([{ name := "Type", value := [105], start := ((0 : Int), (0 : Int)),
          stop := (0, 1) },
       { name := "Number", value := [48], start := (0, 1), stop := (0, 2) },
       { name := "End", value := [101], start := (0, 2), stop := (0, 3) }]
        : List Tok).map Tok.value).flatten = [105, 48, 101] ∧
    chainFrom (0, 0)
      [{ name := "Type", value := [105], start := ((0 : Int), (0 : Int)),
          stop := (0, 1) },
       { name := "Number", value := [48], start := (0, 1), stop := (0, 2) },
       { name := "End", value := [101], start := (0, 2), stop := (0, 3) }] :=
  tokenize_spans [105, 48, 101]
    [{ name := "Type", value := [105], start := ((0 : Int), (0 : Int)),
        stop := (0, 1) },
     { name := "Number", value := [48], start := (0, 1), stop := (0, 2) },
     { name := "End", value := [101], start := (0, 2), stop := (0, 3) }]
    (by decide)

/-! ## The bencode grammar and codec (`moln.bencode`)

`decode_tokens` is a funcparserlib grammar: `value = integer_decl |
dict_decl | list_decl | str_decl`, each alternative selected by a
distinct leading token, `p.many` backtracking to the state before its
last failed attempt.  `_to_dict` is Python `dict(pairs)`: an unhashable
key raises `TypeError`, a duplicate key silently keeps the first
position and the last value.  Failures of the parser are funcparserlib
`NoParseError`; `decode_bytes` catches only `LexerError`, which it
wraps in `DecodeError`. -/

/-- The Python values flowing through the codec: the decoder produces
`int`, `bytes`, `list` and `dict`; the encoder additionally accepts
`str` (modelled by its UTF-8 bytes) and `None`. -/
inductive PyVal where
  | int (i : Int)
  | bytes (b : List Nat)
  | str (s : List Nat)
  | list (xs : List PyVal)
  | dict (entries : List (PyVal × PyVal))
  | none

/-- The error kinds escaping a codec call. `decodeError` is the
`DecodeError` raised by `decode_bytes` when it catches a `LexerError`;
`noParseError` is a funcparserlib `NoParseError` escaping uncaught;
`typeError` is the `TypeError` of `dict()` on an unhashable key;
`encodeError` is `EncodeError` (carrying the offending type's name) and
`valueError` the `ValueError` of `bytes(x)` on a negative `x`. -/
inductive PyErr where
  | decodeError
  | noParseError
  | typeError
  | encodeError (kind : String)
  | valueError
deriving DecidableEq, Repr

/-- `_to_string`: `re.sub(rb'^\d+:', b'', s)` — strip one leading run
of digits followed by a colon, if present. -/
def stripPreamble (v : Bytes) : Bytes :=
  let d := digitRun v
  if d > 0 then
    match (v.drop d).head? with
    | some c => if c = 58 then v.drop (d + 1) else v
    | Option.none => v
  else v

/-- Python hashability of the decoded values: `list` and `dict` are
unhashable, everything else hashes. -/
def pyHashable : PyVal → Bool
  | .list _ => false
  | .dict _ => false
  | _ => true

mutual

/-- Python structural `==` on the values the codec handles. -/
def PyVal.beq : PyVal → PyVal → Bool
  | .int a, .int b => a == b
  | .bytes a, .bytes b => a == b
  | .str a, .str b => a == b
  | .list xs, .list ys => beqItems xs ys
  | .dict xs, .dict ys => beqEntries xs ys
  | .none, .none => true
  | _, _ => false

def beqItems : List PyVal → List PyVal → Bool
  | [], [] => true
  | x :: xs, y :: ys => PyVal.beq x y && beqItems xs ys
  | _, _ => false

def beqEntries : List (PyVal × PyVal) → List (PyVal × PyVal) → Bool
  | [], [] => true
  | (k, v) :: xs, (k2, v2) :: ys =>
    PyVal.beq k k2 && PyVal.beq v v2 && beqEntries xs ys
  | _, _ => false

end

/-- One `dict` insertion: replace the value in place when the key is
already present under Python `==` (keeping its position), else append. -/
def dictInsert : List (PyVal × PyVal) → PyVal → PyVal → List (PyVal × PyVal)
  | [], k, v => [(k, v)]
  | (k0, v0) :: rest, k, v =>
    if PyVal.beq k0 k then (k0, v) :: rest else (k0, v0) :: dictInsert rest k v

/-- `_to_dict`: Python `dict(pairs)` — insert the pairs left to right,
raising `TypeError` on the first unhashable key. -/
def pyDictAux : List (PyVal × PyVal) → List (PyVal × PyVal) →
    Except PyErr (List (PyVal × PyVal))
  | acc, [] => .ok acc
  | acc, (k, v) :: rest =>
    if pyHashable k then pyDictAux (dictInsert acc k v) rest
    else .error .typeError

def pyDict (pairs : List (PyVal × PyVal)) : Except PyErr (List (PyVal × PyVal)) :=
  pyDictAux [] pairs

mutual

/-- The funcparserlib rule `value = integer_decl | dict_decl |
list_decl | str_decl`.  Each alternative is selected by a distinct
leading token (`Type(i)`, `Type(d)`, `Type(l)`, a `String` token), so
the ordered-alternative semantics reduces to this dispatch; a leading
token selecting no alternative, or a selected alternative failing, is a
`NoParseError`.  `fuel` only bounds the recursion depth. -/
def parseValue : Nat → List Tok → Except PyErr (PyVal × List Tok)
  | 0, _ => .error .noParseError
  | _ + 1, [] => .error .noParseError
  | fuel + 1, t :: rest =>
    if t.name = "Type" ∧ t.value = [105] then
      match rest with
      | n :: e :: rest3 =>
        if n.name = "Number" ∧ e.name = "End" ∧ e.value = [101] then
          .ok (.int (decimalValue n.value), rest3)
        else .error .noParseError
      | _ => .error .noParseError
    else if t.name = "Type" ∧ t.value = [100] then
      match parseManyPairs fuel rest with
      | (pairs, e :: rest3) =>
        if e.name = "End" ∧ e.value = [101] then
          match pyDict pairs with
          | .ok d => .ok (.dict d, rest3)
          | .error err => .error err
        else .error .noParseError
      | (_, []) => .error .noParseError
    else if t.name = "Type" ∧ t.value = [108] then
      match parseManyItems fuel rest with
      | (items, e :: rest3) =>
        if e.name = "End" ∧ e.value = [101] then .ok (.list items, rest3)
        else .error .noParseError
      | (_, []) => .error .noParseError
    else if t.name = "String" then
      .ok (.bytes (stripPreamble t.value), rest)
    else .error .noParseError

/-- `p.many(value + value)` inside `dict_decl`: accumulate key/value
pairs until an attempt fails, rolling the token stream back to the
state before the failed attempt. -/
def parseManyPairs : Nat → List Tok → List (PyVal × PyVal) × List Tok
  | 0, toks => ([], toks)
  | fuel + 1, toks =>
    match parseValue fuel toks with
    | .error _ => ([], toks)
    | .ok (k, t1) =>
      match parseValue fuel t1 with
      | .error _ => ([], toks)
      | .ok (v, t2) =>
        let (rest, t3) := parseManyPairs fuel t2
        ((k, v) :: rest, t3)

/-- `p.many(value)` inside `list_decl`. -/
def parseManyItems : Nat → List Tok → List PyVal × List Tok
  | 0, toks => ([], toks)
  | fuel + 1, toks =>
    match parseValue fuel toks with
    | .error _ => ([], toks)
    | .ok (v, t1) =>
      let (rest, t2) := parseManyItems fuel t1
      (v :: rest, t2)

end

/-- `decode_tokens`: `bencode_decl = value + p.skip(p.finished)` — one
top-level value, then the token stream must be exhausted. -/
def decode_tokens (toks : List Tok) : Except PyErr PyVal :=
  match parseValue (toks.length + 1) toks with
  | .error e => .error e
  | .ok (v, rest) => if rest = [] then .ok v else .error .noParseError

/-- `decode_bytes`: tokenize, then parse; only a `LexerError` is caught
and re-raised as `DecodeError` — parser errors propagate unchanged. -/
def decode_bytes (b : Bytes) : Except PyErr PyVal :=
  match tokenize b with
  | Option.none => .error .decodeError
  | some toks => decode_tokens toks

/-- `str(n).encode()` for a natural number: its ASCII decimal digits. -/
def natDecimalBytes (n : Nat) : Bytes :=
  (Nat.toDigits 10 n).map Char.toNat

/-- Python `bytes(x)` for an `int` argument: `x` zero bytes when
`x ≥ 0`, `ValueError` when `x < 0`. -/
def pyBytesOfInt (i : Int) : Except PyErr Bytes :=
  if i < 0 then .error .valueError else .ok (List.replicate i.toNat 0)

mutual

/-- `encode_bytes`: `bytes` and `str` become `len:payload`; an `int`
becomes `b'i' + bytes(x) + b'e'`; lists and dicts recurse; anything
else raises `EncodeError` naming the offending type. -/
def encode_bytes : PyVal → Except PyErr Bytes
  | .bytes b => .ok (natDecimalBytes b.length ++ [58] ++ b)
  | .str s => .ok (natDecimalBytes s.length ++ [58] ++ s)
  | .int i =>
    match pyBytesOfInt i with
    | .ok body => .ok ([105] ++ body ++ [101])
    | .error e => .error e
  | .list xs =>
    match encodeItems xs with
    | .ok parts => .ok ([108] ++ parts ++ [101])
    | .error e => .error e
  | .dict es =>
    match encodeEntries es with
    | .ok parts => .ok ([100] ++ parts ++ [101])
    | .error e => .error e
  | .none => .error (.encodeError "NoneType")

/-- `b''.join(encode_bytes(i) for i in x)`: left-to-right, first
exception wins. -/
def encodeItems : List PyVal → Except PyErr Bytes
  | [] => .ok []
  | x :: xs =>
    match encode_bytes x with
    | .ok bx =>
      match encodeItems xs with
      | .ok rest => .ok (bx ++ rest)
      | .error e => .error e
    | .error e => .error e

/-- `b''.join(encode_bytes(k) + encode_bytes(v) for k, v in x.items())`. -/
def encodeEntries : List (PyVal × PyVal) → Except PyErr Bytes
  | [] => .ok []
  | (k, v) :: rest =>
    match encode_bytes k with
    | .ok bk =>
      match encode_bytes v with
      | .ok bv =>
        match encodeEntries rest with
        | .ok brest => .ok (bk ++ bv ++ brest)
        | .error e => .error e
      | .error e => .error e
    | .error e => .error e

end

mutual

theorem PyVal.beq_refl : ∀ a : PyVal, PyVal.beq a a = true
  | .int i => by simp [PyVal.beq]
  | .bytes b => by simp [PyVal.beq]
  | .str s => by simp [PyVal.beq]
  | .list xs => by simp [PyVal.beq, beqItems_refl xs]
  | .dict es => by simp [PyVal.beq, beqEntries_refl es]
  | .none => rfl

theorem beqItems_refl : ∀ xs : List PyVal, beqItems xs xs = true
  | [] => rfl
  | x :: xs => by simp [beqItems, PyVal.beq_refl x, beqItems_refl xs]

theorem beqEntries_refl : ∀ es : List (PyVal × PyVal), beqEntries es es = true
  | [] => rfl
  | (k, v) :: es => by
    simp [beqEntries, PyVal.beq_refl k, PyVal.beq_refl v, beqEntries_refl es]

end

/-! ## The claims -/

/-- Claim C1 (the code disagrees): the integer encoder does not emit
ASCII decimal digits.  `encode_bytes(0)` is `b"ie"` (the payload
`bytes(0)` is empty, not `b"0"`), a positive `x` yields `x` NUL bytes,
and a negative `x` raises `ValueError` — nothing like `b"i-42e"`. -/
theorem encode_integer_not_decimal :
    encode_bytes (.int 0) = .ok [105, 101] ∧
    encode_bytes (.int 5) = .ok [105, 0, 0, 0, 0, 0, 101] ∧
    encode_bytes (.int (-42)) = .error .valueError :=
  ⟨rfl, rfl, rfl⟩

/-- Claim C2 (the code disagrees): the round trip fails already on
`Integer(0)`: its encoding is `b"ie"`, which the decoder rejects with a
grammar `NoParseError` instead of returning `Integer(0)`. -/
theorem roundtrip_fails_on_integer :
    encode_bytes (.int 0) = .ok [105, 101] ∧
    decode_bytes [105, 101] = .error .noParseError :=
  ⟨rfl, rfl⟩

/-- Claim C3 counterexample: on input `b"e"` the grammar failure
escapes `decode_bytes` as a raw funcparserlib `NoParseError`, not as
the single `DecodeError` the claim promises. -/
theorem decode_grammar_error_unwrapped :
    decode_bytes [101] = .error .noParseError ∧
    PyErr.noParseError ≠ PyErr.decodeError :=
  ⟨rfl, by decide⟩

/-- Claim C3 as amended: only lexical failures are wrapped — whenever
tokenization fails, `decode_bytes` fails with the single `DecodeError`
(and no partial result). -/
theorem decode_wraps_lexical_errors (s : Bytes)
    (h : tokenize s = Option.none) :
    decode_bytes s = .error .decodeError := by
  unfold decode_bytes
  rw [h]

/-- Witness for the amended C3 at the one-byte buffer `b":"`. -/
theorem decode_wraps_lexical_errors_witness :
    tokenize [58] = Option.none ∧ decode_bytes [58] = .error .decodeError :=
  ⟨rfl, decode_wraps_lexical_errors [58] rfl⟩

/-- Claim C4 counterexample: decoding `b"d1:a1:b1:a1:ce"`, whose key
`b"a"` occurs in two entries, succeeds with a dictionary (the later
value `b"c"` silently wins) instead of failing with a grammar error. -/
theorem decode_duplicate_key_succeeds :
    decode_bytes [100, 49, 58, 97, 49, 58, 98, 49, 58, 97, 49, 58, 99, 101]
      = .ok (.dict [(.bytes [97], .bytes [99])]) :=
  rfl

/-- Claim C4 as amended: a duplicate (hashable) dictionary key is not
rejected — `dict(pairs)` keeps the key's first position and its last
value. -/
theorem pyDict_duplicate_keeps_last (k v w : PyVal)
    (h : pyHashable k = true) :
    pyDict [(k, v), (k, w)] = .ok [(k, w)] := by
  simp [pyDict, pyDictAux, h, dictInsert, PyVal.beq_refl k]

/-- Witness for the amended C4 at key `b"a"`, values `b"b"`, `b"c"`. -/
theorem pyDict_duplicate_keeps_last_witness :
    pyHashable (.bytes [97]) = true ∧
    pyDict [(.bytes [97], .bytes [98]), (.bytes [97], .bytes [99])]
      = .ok [(.bytes [97], .bytes [99])] :=
  ⟨rfl, pyDict_duplicate_keeps_last (.bytes [97]) (.bytes [98]) (.bytes [99]) rfl⟩

/-- Claim C5 counterexample: decoding `b"di1e1:ae"`, a dictionary with
the Integer key `1`, succeeds — no grammar-level ByteString-key check
exists. -/
theorem decode_integer_key_succeeds :
    decode_bytes [100, 105, 49, 101, 49, 58, 97, 101]
      = .ok (.dict [(.int 1, .bytes [97])]) :=
  rfl

/-- Claim C5 as amended: non-ByteString keys are only rejected
incidentally, and only when unhashable — a List key (input `b"dle1:ae"`)
fails with the `TypeError` from building the Python dict, not with a
grammar error. -/
theorem decode_unhashable_key_type_error :
    decode_bytes [100, 108, 101, 49, 58, 97, 101] = .error .typeError :=
  rfl

/-- Claim C6 counterexample: in `b"5:ab"` the declared length 5 exceeds
the 2 bytes remaining after the colon, yet decoding succeeds with the
truncated payload instead of failing with a lexical error. -/
theorem decode_overrun_string_succeeds :
    decode_bytes [53, 58, 97, 98] = .ok (.bytes [97, 98]) :=
  rfl

/-- Claim C6 as amended: an overrunning length prefix is clamped — the
slice `source[start:str_last]` stops at the end of the buffer, the
string token carries whatever bytes remain, and decoding succeeds with
the truncated payload (here `b"10:hi"` decodes to `b"hi"`). -/
theorem decode_overrun_string_truncates :
    tokenize [49, 48, 58, 104, 105]
      = some [{ name := "String", value := [49, 48, 58, 104, 105],
                start := ((0 : Int), (0 : Int)), stop := (0, 5) }] ∧
    decode_bytes [49, 48, 58, 104, 105] = .ok (.bytes [104, 105]) :=
  ⟨rfl, rfl⟩

/-- Claim C7 (the code disagrees): the string rule's preamble regex
`([1-9][0-9]*):` excludes a zero length, so `b"0:"` lexes as `Number`
`b"0"` followed by an unmatched `b":"` — `decode_bytes` raises
`DecodeError` instead of returning the empty byte string, even though
the encoder itself produces `b"0:"` for `ByteString(b"")`. -/
theorem decode_empty_string_literal_rejected :
    decode_bytes [48, 58] = .error .decodeError ∧
    encode_bytes (.bytes []) = .ok [48, 58] :=
  ⟨rfl, rfl⟩

/-- Claim C9 counterexample: a `str` value lies outside the four
bencode variants, yet `encode_bytes` happily encodes it (UTF-8) instead
of failing with `EncodeError`: `encode("a") = b"1:a"`. -/
theorem encode_str_succeeds :
    encode_bytes (.str [97]) = .ok [49, 58, 97] :=
  rfl

/-- Claim C9 as amended: only values outside the five kinds the encoder
handles (`bytes`, `str`, `int`, `list`, `dict`) fail, with an
`EncodeError` naming the offending kind — as `None` does. -/
theorem encode_unsupported_kind_error :
    encode_bytes PyVal.none = .error (.encodeError "NoneType") :=
  rfl

end Moln
